import Mathlib

set_option linter.unusedVariables false

/-!
Verification of the WALS interaction layer (`language_info.py`).

The development shallowly embeds the final revision of the source file:
Python dicts become insertion-ordered association lists (`pyGet`,
`pyInsert`), Python string primitives (`str.split("-")`, `int(...)`,
`str.strip()`, `str.casefold()`, `str(i)`) become structural Lean
functions over the character list of a `String`, and Python exceptions
become `Except String` / `Option` results.
-/

/-! ## Python dictionaries as insertion-ordered association lists -/

/-- Lookup in an association list: the value of the first pair whose key
matches, mirroring Python `d[k]` / `k in d` on a dict whose items are kept
in insertion order. -/
def pyGet {α β : Type} [DecidableEq α] : List (α × β) → α → Option β
  | [], _ => none
  | kv :: rest, k => if kv.1 = k then some kv.2 else pyGet rest k

/-- Key membership test for an association list (`k in d`). -/
def containsKey {α β : Type} [DecidableEq α] : List (α × β) → α → Bool
  | [], _ => false
  | kv :: rest, k => if kv.1 = k then true else containsKey rest k

/-- Replace the value stored at a key, keeping the entry position. -/
def replaceKey {α β : Type} [DecidableEq α] : List (α × β) → α → β → List (α × β)
  | [], _, _ => []
  | kv :: rest, k, v =>
    if kv.1 = k then (k, v) :: replaceKey rest k v else kv :: replaceKey rest k v

/-- Python dict assignment `d[k] = v`: update in place when the key is
present (its position is unchanged), otherwise append at the end. -/
def pyInsert {α β : Type} [DecidableEq α] (d : List (α × β)) (k : α) (v : β) :
    List (α × β) :=
  if containsKey d k then replaceKey d k v else d ++ [(k, v)]

/-! ## Python string primitives -/

/-- Characters removed by Python `str.strip()` (the common ASCII whitespace). -/
def isPyWs (c : Char) : Bool :=
  c = ' ' || c = '\t' || c = '\n' || c = '\r'

/-- `str.strip()` on the character list: drop whitespace at both ends. -/
def stripChars (cs : List Char) : List Char :=
  ((cs.dropWhile isPyWs).reverse.dropWhile isPyWs).reverse

/-- Python `s.strip()`. -/
def pyStrip (s : String) : String := ⟨stripChars s.data⟩

/-- Python `s.casefold()`, modelled for ASCII data as lower-casing. -/
def pyCasefold (s : String) : String := ⟨s.data.map Char.toLower⟩

/-- The normalisation `s.strip().casefold()` applied to both sides of the
name comparison in `get_language_info`. -/
def pyNormalize (s : String) : String := pyCasefold (pyStrip s)

/-- Decimal digit value of a character, `none` for a non-digit. -/
def digitVal (c : Char) : Option Nat :=
  if '0' ≤ c ∧ c ≤ '9' then some (c.toNat - '0'.toNat) else none

/-- Accumulating decimal reader; fails on the first non-digit. -/
def natOfDigitsAux : List Char → Nat → Option Nat
  | [], acc => some acc
  | c :: cs, acc =>
    match digitVal c with
    | some d => natOfDigitsAux cs (10 * acc + d)
    | none => none

/-- Python `int(s)` for the decimal case: surrounding whitespace is
stripped, one optional sign is allowed, and the remainder must be a
non-empty digit string; any other shape raises, modelled as `none`. -/
def pyInt (s : String) : Option Int :=
  match stripChars s.data with
  | [] => none
  | '-' :: rest =>
    if rest.isEmpty then none else (natOfDigitsAux rest 0).map (fun n => -(n : Int))
  | '+' :: rest =>
    if rest.isEmpty then none else (natOfDigitsAux rest 0).map (fun n => (n : Int))
  | rest => (natOfDigitsAux rest 0).map (fun n => (n : Int))

/-- Worker for Python `s.split("-")`: every occurrence of the separator
splits, empty fields are kept. -/
def splitDashAux : List Char → List Char → List String
  | [], acc => [⟨acc.reverse⟩]
  | c :: cs, acc =>
    if c = '-' then ⟨acc.reverse⟩ :: splitDashAux cs [] else splitDashAux cs (c :: acc)

/-- Python `s.split("-")`. -/
def pySplitDash (s : String) : List String := splitDashAux s.data []

/-- Digit character for a value below ten. -/
def digitChar (n : Nat) : Char := Char.ofNat (48 + n)

/-- Fuelled decimal printer used by `pyStr`. -/
def pyStrAux : Nat → Nat → List Char → List Char
  | 0, _, acc => acc
  | fuel + 1, n, acc =>
    if n < 10 then digitChar n :: acc
    else pyStrAux fuel (n / 10) (digitChar (n % 10) :: acc)

/-- Python `str(n)` for a non-negative integer. -/
def pyStr (n : Nat) : String := ⟨pyStrAux (n + 1) n []⟩

/-! ## The codes table and `wals.get_feature_description` -/

/-- One row of `codes.csv`, with the columns the loader reads. -/
structure CodeRow where
  Parameter_ID : String
  ID : String
  Description : String
deriving DecidableEq

/-- Catalog entry for one parameter: the running maximum of parsed code
suffixes together with the per-code descriptions (`feature2desc[param]`). -/
structure ParamInfo where
  max_value : Int
  codes : List (String × String)
deriving DecidableEq

/-- The `feature2desc` dictionary. -/
abbrev Catalog := List (String × ParamInfo)

/-- The suffix parse `int(row["ID"].split("-")[1])`: the field after the
first separator, read as an integer; `none` models the raised exception
when the field is missing or non-numeric. -/
def pySuffix (id : String) : Option Int :=
  ((pySplitDash id)[1]?).bind pyInt

/-- Processing of a single codes row: initialise the parameter entry when
new, record the code description, and fold the parsed suffix into the
running maximum. -/
def stepCatalog (d : Catalog) (row : CodeRow) : Option Catalog :=
  match pySuffix row.ID with
  | none => none
  | some sfx =>
    let info := (pyGet d row.Parameter_ID).getD ⟨0, []⟩
    some (pyInsert d row.Parameter_ID
      ⟨max info.max_value sfx, pyInsert info.codes row.ID row.Description⟩)

/-- The loader loop over the codes table, from a given starting state. -/
def loadCodes (d : Catalog) : List CodeRow → Option Catalog
  | [] => some d
  | row :: rest =>
    match stepCatalog d row with
    | none => none
    | some d1 => loadCodes d1 rest

/-- `wals.get_feature_description`: build `feature2desc` from the codes
table. -/
def get_feature_description (rows : List CodeRow) : Option Catalog :=
  loadCodes [] rows

/-- The parsed suffixes of the rows recorded for one parameter. -/
def sfxList (rows : List CodeRow) (p : String) : List Int :=
  (rows.filter (fun r => decide (r.Parameter_ID = p))).filterMap (fun r => pySuffix r.ID)

/-! ## The languages table and `wals.get_language_info` -/

/-- One row of `languages.csv`, with the columns the loader reads. -/
structure LangRow where
  ID : String
  Name : String
  ISO639P3code : String
  Macroarea : String
  Family : String
  Subfamily : String
  Genus : String
deriving DecidableEq

/-- The per-language record stored in `lang2desc`. -/
structure LangDesc where
  Name : String
  ISO639P3code : String
  Macroarea : String
  Family : String
  Subfamily : String
  Genus : String
  ID : String
deriving DecidableEq

/-- The record built from a languages row. -/
def toDesc (r : LangRow) : LangDesc :=
  ⟨r.Name, r.ISO639P3code, r.Macroarea, r.Family, r.Subfamily, r.Genus, r.ID⟩

/-- The loader loop of `init_language_info`, keying rows by ISO code. -/
def initLangAux (d : List (String × LangDesc)) : List LangRow → List (String × LangDesc)
  | [] => d
  | r :: rest => initLangAux (pyInsert d r.ISO639P3code (toDesc r)) rest

/-- `wals.init_language_info`: build `lang2desc` from the languages table. -/
def init_language_info (rows : List LangRow) : List (String × LangDesc) :=
  initLangAux [] rows

/-- Python truthiness of an optional string argument: `None` and the empty
string are both falsy. -/
def truthy : Option String → Bool
  | none => false
  | some s => !(s = "")

/-- The name-scanning loop of `get_language_info`: return the first stored
record whose normalised name equals the normalised query. -/
def findName (nm : String) : List (String × LangDesc) → Option LangDesc
  | [] => none
  | kv :: rest =>
    if pyNormalize kv.2.Name = pyNormalize nm then some kv.2 else findName nm rest

/-- `wals.get_language_info`: a truthy `language_id` is looked up exactly
(missing key gives `none`); otherwise a truthy `language_name` is matched
case-insensitively after stripping, first match in dict order; otherwise
the `ValueError` is raised. -/
def get_language_info (d : List (String × LangDesc))
    (language_id language_name : Option String) : Except String (Option LangDesc) :=
  if truthy language_id then
    .ok (pyGet d (language_id.getD ""))
  else if truthy language_name then
    .ok (findName (language_name.getD "") d)
  else
    .error "Provide either language ID or language name."

/-- First row of the languages table whose normalised name matches; the
specification-side description of name lookup, to be compared with the
dict scan of the source. -/
def firstByName (nm : String) : List LangRow → Option LangRow
  | [] => none
  | r :: rest =>
    if pyNormalize r.Name = pyNormalize nm then some r else firstByName nm rest

/-! ## Feature sets, binarization and position maps -/

/-- `wals.get_predefined_feature_sets`: the hard-coded named sets;
"phonological" raises `NotImplementedError`, unknown names raise
`ValueError`. -/
def get_predefined_feature_sets (feature_set_type : String) : Except String (List String) :=
  if feature_set_type = "phonological" then
    .error "NotImplementedError"
  else if feature_set_type = "morphological" then
    .ok ["20A", "21A", "21B", "26A", "27A", "28A", "29A", "30A", "31A", "32A",
         "33A", "34A", "35A", "37A", "38A", "39A", "39B", "40A", "44A", "45A",
         "65A", "66A", "67A", "68A", "69A", "70A"]
  else if feature_set_type = "syntactic" then
    .ok ["81A", "81B", "82A", "83A", "84A", "85A", "86A", "87A", "88A", "89A",
         "90A", "90B", "90C", "90D", "90E", "90F", "90G", "91A", "92A", "93A",
         "94A", "95A", "96A", "97A", "98A", "99A", "100A", "101A", "112A",
         "115A", "116A", "143C", "143D", "143E", "143F", "144A", "144C", "144D"]
  else
    .error "Invalid feature set type"

/-- The code IDs `feature-1 .. feature-max_value` produced for one
parameter by the binarization loop `for i in range(1, max_value + 1)`. -/
def codeIDs (feature : String) (mv : Int) : List String :=
  (List.range mv.toNat).map (fun j => feature ++ "-" ++ pyStr (j + 1))

/-- The stored max-value of a parameter, `0` when the parameter is absent
(the absent case never arises after a successful lookup). -/
def maxValOf (f2d : Catalog) (f : String) : Int :=
  (pyGet f2d f).elim 0 ParamInfo.max_value

/-- `wals._binarize_feature_set`: replace every parameter by its code-ID
range, raising `ValueError` on a parameter absent from the catalog. -/
def binarize_feature_set (f2d : Catalog) : List String → Except String (List String)
  | [] => .ok []
  | f :: rest =>
    match pyGet f2d f with
    | some info =>
      (binarize_feature_set f2d rest).map (fun l => codeIDs f info.max_value ++ l)
    | none => .error "Invalid feature ID in binarize_feature_set()"

/-- The loop of `get_feature_vector` that assigns positions:
`feature2idx[feature] = len(feature2idx)` and
`idx2feature[len(idx2feature)] = feature`. -/
def buildMapsAux : List String → List (String × Nat) → List (Nat × String) →
    List (String × Nat) × List (Nat × String)
  | [], f2i, i2f => (f2i, i2f)
  | f :: rest, f2i, i2f =>
    buildMapsAux rest (pyInsert f2i f f2i.length) (pyInsert i2f i2f.length f)

/-- Position-map construction from a resolved feature set. -/
def buildMaps (fs : List String) : List (String × Nat) × List (Nat × String) :=
  buildMapsAux fs [] []

/-- `wals.get_feature_vector`: resolve the feature set (named set if the
type argument is truthy, explicit list if non-empty, otherwise all catalog
keys), binarize it when the instance is in binary mode, and build
`feature2idx` / `idx2feature`. -/
def get_feature_vector (f2d : Catalog) (binary : Bool)
    (feature_set_type : Option String) (feature_set : Option (List String)) :
    Except String (List (String × Nat) × List (Nat × String)) :=
  let fs0 : Except String (List String) :=
    if truthy feature_set_type then
      get_predefined_feature_sets (feature_set_type.getD "")
    else
      match feature_set with
      | some l => if l.isEmpty then .ok (f2d.map Prod.fst) else .ok l
      | none => .ok (f2d.map Prod.fst)
  match fs0 with
  | .error e => .error e
  | .ok fs1 =>
    if binary then
      match binarize_feature_set f2d fs1 with
      | .error e => .error e
      | .ok fs2 => .ok (buildMaps fs2)
    else
      .ok (buildMaps fs1)

/-! ## The values table and `wals.get_language_vector` -/

/-- One row of `values.csv`, with the columns the scan reads. -/
structure ValueRow where
  Language_ID : String
  Parameter_ID : String
  Value : String
deriving DecidableEq

/-- The key the scan looks up for a row: the reconstructed code
`Parameter_ID + "-" + Value` in binary mode, the bare `Parameter_ID`
otherwise. -/
def rowKey (binary : Bool) (r : ValueRow) : String :=
  if binary then r.Parameter_ID ++ "-" ++ r.Value else r.Parameter_ID

/-- The value written for a matching row: `1` in binary mode, the parsed
`int(Value)` otherwise (`none` models the `ValueError`). -/
def rowVal (binary : Bool) (r : ValueRow) : Option Int :=
  if binary then some 1 else pyInt r.Value

/-- Python list assignment `vec[i] = v`: out-of-range indices raise,
modelled as `none`. -/
def pySet (vec : List Int) (i : Nat) (v : Int) : Option (List Int) :=
  if i < vec.length then some (vec.set i v) else none

/-- Processing of one values row by the scan of `get_language_vector`. -/
def applyRow (binary : Bool) (L : String) (m : List (String × Nat))
    (vec : List Int) (r : ValueRow) : Option (List Int) :=
  if r.Language_ID = L then
    match pyGet m (rowKey binary r) with
    | some i =>
      match rowVal binary r with
      | some v => pySet vec i v
      | none => none
    | none => some vec
  else
    some vec

/-- The linear scan of the values table. -/
def scanRows (binary : Bool) (L : String) (m : List (String × Nat)) :
    List ValueRow → List Int → Option (List Int)
  | [], vec => some vec
  | r :: rest, vec =>
    match applyRow binary L m vec r with
    | none => none
    | some vec1 => scanRows binary L m rest vec1

/-- `wals.get_language_vector`: a falsy `feature2idx` argument (absent or
empty) is replaced by the default map over all features, the vector starts
as zeros of the map's size, and one scan of the values table fills it. -/
def get_language_vector (f2d : Catalog) (binary : Bool) (rows : List ValueRow)
    (language_id : String) (feature2idx : Option (List (String × Nat))) :
    Option (List Int) :=
  let mOpt : Option (List (String × Nat)) :=
    match feature2idx with
    | some m =>
      if m.isEmpty then ((get_feature_vector f2d binary none none).toOption).map Prod.fst
      else some m
    | none => ((get_feature_vector f2d binary none none).toOption).map Prod.fst
  match mOpt with
  | none => none
  | some m => scanRows binary language_id m rows (List.replicate m.length 0)

/-- The Boolean predicate "this row writes to slot `i`": the row is for the
target language and its key occupies position `i` in the map. -/
def writesTo (binary : Bool) (L : String) (m : List (String × Nat)) (i : Nat)
    (r : ValueRow) : Bool :=
  decide (r.Language_ID = L) && decide (pyGet m (rowKey binary r) = some i)

/-! ## Lemmas about the dictionary model -/

lemma containsKey_eq_isSome {α β : Type} [DecidableEq α] (d : List (α × β)) (k : α) :
    containsKey d k = (pyGet d k).isSome := by
  induction d with
  | nil => rfl
  | cons kv rest ih =>
    by_cases hk : kv.1 = k
    · simp [containsKey, pyGet, hk]
    · simp [containsKey, pyGet, hk, ih]

lemma pyGet_replaceKey_self {α β : Type} [DecidableEq α] (d : List (α × β)) (k : α) (v : β)
    (h : containsKey d k = true) : pyGet (replaceKey d k v) k = some v := by
  induction d with
  | nil => simp [containsKey] at h
  | cons kv rest ih =>
    by_cases hk : kv.1 = k
    · simp [replaceKey, hk, pyGet]
    · simp only [containsKey, if_neg hk] at h
      simp [replaceKey, hk, pyGet, ih h]

lemma pyGet_replaceKey_ne {α β : Type} [DecidableEq α] (d : List (α × β)) (k k' : α) (v : β)
    (h : k' ≠ k) : pyGet (replaceKey d k v) k' = pyGet d k' := by
  induction d with
  | nil => rfl
  | cons kv rest ih =>
    by_cases hk : kv.1 = k
    · have : ¬ (k = k') := fun he => h he.symm
      simp [replaceKey, hk, pyGet, this, ih]
    · simp only [replaceKey, if_neg hk]
      by_cases hk' : kv.1 = k'
      · simp [pyGet, hk']
      · simp [pyGet, hk', ih]

lemma pyGet_append {α β : Type} [DecidableEq α] (d1 d2 : List (α × β)) (k : α) :
    pyGet (d1 ++ d2) k = (pyGet d1 k).or (pyGet d2 k) := by
  induction d1 with
  | nil => rfl
  | cons kv rest ih =>
    by_cases hk : kv.1 = k
    · simp [pyGet, hk]
    · simp [pyGet, hk, ih]

lemma pyGet_pyInsert_self {α β : Type} [DecidableEq α] (d : List (α × β)) (k : α) (v : β) :
    pyGet (pyInsert d k v) k = some v := by
  unfold pyInsert
  by_cases h : containsKey d k = true
  · simp [h, pyGet_replaceKey_self d k v h]
  · have hn : pyGet d k = none := by
      rw [containsKey_eq_isSome] at h
      exact Option.not_isSome_iff_eq_none.mp h
    simp [h, pyGet_append, hn, pyGet]

lemma pyGet_pyInsert_ne {α β : Type} [DecidableEq α] (d : List (α × β)) (k k' : α) (v : β)
    (h : k' ≠ k) : pyGet (pyInsert d k v) k' = pyGet d k' := by
  unfold pyInsert
  by_cases hc : containsKey d k = true
  · simp [hc, pyGet_replaceKey_ne d k k' v h]
  · have hne : ¬ (k = k') := fun he => h he.symm
    have : pyGet [(k, v)] k' = none := by simp [pyGet, hne]
    simp [hc, pyGet_append, this]

lemma pyGet_mem {α β : Type} [DecidableEq α] (d : List (α × β)) (k : α) (v : β)
    (h : pyGet d k = some v) : (k, v) ∈ d := by
  induction d with
  | nil => simp [pyGet] at h
  | cons kv rest ih =>
    by_cases hk : kv.1 = k
    · simp only [pyGet, if_pos hk, Option.some.injEq] at h
      rw [← hk, ← h]
      exact List.mem_cons_self kv rest
    · simp only [pyGet, if_neg hk] at h
      exact List.mem_cons_of_mem _ (ih h)

lemma replaceKey_length {α β : Type} [DecidableEq α] (d : List (α × β)) (k : α) (v : β) :
    (replaceKey d k v).length = d.length := by
  induction d with
  | nil => rfl
  | cons kv rest ih =>
    by_cases hk : kv.1 = k <;> simp [replaceKey, hk, ih]

lemma pyInsert_length {α β : Type} [DecidableEq α] (d : List (α × β)) (k : α) (v : β) :
    (pyInsert d k v).length = if containsKey d k then d.length else d.length + 1 := by
  unfold pyInsert
  by_cases h : containsKey d k = true <;> simp [h, replaceKey_length]

/-! ## Fold-max lemmas -/

lemma le_foldl_max (l : List Int) (a : Int) : a ≤ l.foldl max a := by
  induction l generalizing a with
  | nil => exact le_refl a
  | cons b l ih =>
    calc a ≤ max a b := le_max_left a b
      _ ≤ (b :: l).foldl max a := by simpa [List.foldl_cons] using ih (max a b)

lemma foldl_max_le_of_mem (l : List Int) (a x : Int) (h : x ∈ l) : x ≤ l.foldl max a := by
  induction l generalizing a with
  | nil => simp at h
  | cons b l ih =>
    rcases List.mem_cons.mp h with rfl | hx
    · calc x ≤ max a x := le_max_right a x
        _ ≤ (x :: l).foldl max a := by simpa [List.foldl_cons] using le_foldl_max l (max a x)
    · simpa [List.foldl_cons] using ih (max a b) hx

lemma foldl_max_eq_or_mem (l : List Int) (a : Int) :
    l.foldl max a = a ∨ l.foldl max a ∈ l := by
  induction l generalizing a with
  | nil => exact Or.inl rfl
  | cons b l ih =>
    rcases ih (max a b) with h | h
    · rcases max_choice a b with hm | hm
      · exact Or.inl (by simpa [List.foldl_cons, hm] using h)
      · refine Or.inr ?_
        rw [List.foldl_cons, h, hm]
        exact List.mem_cons_self b l
    · exact Or.inr (List.mem_cons_of_mem b (by simpa [List.foldl_cons] using h))

/-! ## Catalog loader lemmas -/

lemma loadCodes_parse (rows : List CodeRow) :
    ∀ (d d1 : Catalog), loadCodes d rows = some d1 → ∀ r ∈ rows, (pySuffix r.ID).isSome := by
  induction rows with
  | nil => intro d d1 _ r hr; simp at hr
  | cons row rest ih =>
    intro d d1 h r hr
    simp only [loadCodes] at h
    cases hstep : stepCatalog d row with
    | none => rw [hstep] at h; exact absurd h (by simp)
    | some d2 =>
      rw [hstep] at h
      rcases List.mem_cons.mp hr with rfl | hr2
      · unfold stepCatalog at hstep
        cases hsfx : pySuffix r.ID with
        | none => rw [hsfx] at hstep; exact absurd hstep (by simp)
        | some s => simp [hsfx]
      · exact ih d2 d1 h r hr2

lemma loadCodes_dom (rows : List CodeRow) :
    ∀ (d d1 : Catalog), loadCodes d rows = some d1 → ∀ p, (pyGet d1 p).isSome →
      (pyGet d p).isSome ∨ ∃ r ∈ rows, r.Parameter_ID = p := by
  induction rows with
  | nil =>
    intro d d1 h p hp
    simp only [loadCodes, Option.some.injEq] at h
    subst h
    exact Or.inl hp
  | cons row rest ih =>
    intro d d1 h p hp
    simp only [loadCodes] at h
    cases hstep : stepCatalog d row with
    | none => rw [hstep] at h; exact absurd h (by simp)
    | some d2 =>
      rw [hstep] at h
      rcases ih d2 d1 h p hp with h2 | ⟨r, hr, hrp⟩
      · unfold stepCatalog at hstep
        cases hsfx : pySuffix row.ID with
        | none => rw [hsfx] at hstep; exact absurd hstep (by simp)
        | some s =>
          rw [hsfx] at hstep
          simp only [Option.some.injEq] at hstep
          by_cases hq : row.Parameter_ID = p
          · exact Or.inr ⟨row, List.mem_cons_self _ _, hq⟩
          · rw [← hstep, pyGet_pyInsert_ne _ _ _ _ (fun he => hq he.symm)] at h2
            exact Or.inl h2
      · exact Or.inr ⟨r, List.mem_cons_of_mem _ hr, hrp⟩

lemma sfxList_cons_eq (row : CodeRow) (rest : List CodeRow) (p : String) (s : Int)
    (hq : row.Parameter_ID = p) (hs : pySuffix row.ID = some s) :
    sfxList (row :: rest) p = s :: sfxList rest p := by
  simp [sfxList, List.filter_cons, hq, List.filterMap_cons, hs]

lemma sfxList_cons_ne (row : CodeRow) (rest : List CodeRow) (p : String)
    (hq : row.Parameter_ID ≠ p) : sfxList (row :: rest) p = sfxList rest p := by
  simp [sfxList, List.filter_cons, hq]

lemma loadCodes_max (rows : List CodeRow) :
    ∀ (d d1 : Catalog), loadCodes d rows = some d1 → ∀ p info, pyGet d1 p = some info →
      info.max_value = (sfxList rows p).foldl max ((pyGet d p).elim 0 ParamInfo.max_value) := by
  induction rows with
  | nil =>
    intro d d1 h p info hp
    simp only [loadCodes, Option.some.injEq] at h
    subst h
    simp [sfxList, hp]
  | cons row rest ih =>
    intro d d1 h p info hp
    simp only [loadCodes] at h
    cases hstep : stepCatalog d row with
    | none => rw [hstep] at h; exact absurd h (by simp)
    | some d2 =>
      rw [hstep] at h
      unfold stepCatalog at hstep
      cases hsfx : pySuffix row.ID with
      | none => rw [hsfx] at hstep; exact absurd hstep (by simp)
      | some s =>
        rw [hsfx] at hstep
        simp only [Option.some.injEq] at hstep
        have hbase : ((pyGet d row.Parameter_ID).getD ⟨0, []⟩).max_value
            = (pyGet d row.Parameter_ID).elim 0 ParamInfo.max_value := by
          cases pyGet d row.Parameter_ID <;> rfl
        by_cases hq : row.Parameter_ID = p
        · subst hq
          have hd2 : pyGet d2 row.Parameter_ID
              = some ⟨max ((pyGet d row.Parameter_ID).getD ⟨0, []⟩).max_value s,
                  pyInsert ((pyGet d row.Parameter_ID).getD ⟨0, []⟩).codes row.ID
                    row.Description⟩ := by
            rw [← hstep]
            exact pyGet_pyInsert_self _ _ _
          have := ih d2 d1 h row.Parameter_ID info hp
          rw [sfxList_cons_eq row rest row.Parameter_ID s rfl hsfx, List.foldl_cons]
          rw [this, hd2]
          simp [hbase]
        · have hd2 : pyGet d2 p = pyGet d p := by
            rw [← hstep]
            exact pyGet_pyInsert_ne _ _ _ _ (fun he => hq he.symm)
          have := ih d2 d1 h p info hp
          rw [sfxList_cons_ne row rest p hq, this, hd2]

/-- C2: after the catalog is loaded, for every parameter present in it the
stored `max_value` equals the maximum of the parsed numeric suffixes over
the code rows recorded for that parameter (here: it is one of the parsed
suffixes and bounds all of them; the suffixes of real code IDs are
non-negative, which is the stated hypothesis). -/
theorem catalog_max_value_is_max (rows : List CodeRow) (d : Catalog) (p : String)
    (info : ParamInfo) (hload : get_feature_description rows = some d)
    (hp : pyGet d p = some info) (hnn : ∀ s ∈ sfxList rows p, 0 ≤ s) :
    info.max_value ∈ sfxList rows p ∧ ∀ s ∈ sfxList rows p, s ≤ info.max_value := by
  have hmax : info.max_value = (sfxList rows p).foldl max 0 := by
    have := loadCodes_max rows [] d hload p info hp
    simpa [pyGet] using this
  have hne : sfxList rows p ≠ [] := by
    have hdom := loadCodes_dom rows [] d hload p (by simp [hp])
    rcases hdom with hfalse | ⟨r, hr, hrp⟩
    · simp [pyGet] at hfalse
    · have hparse := loadCodes_parse rows [] d hload r hr
      rcases Option.isSome_iff_exists.mp hparse with ⟨s, hs⟩
      have hmem : s ∈ sfxList rows p := by
        refine List.mem_filterMap.mpr ⟨r, ?_, hs⟩
        exact List.mem_filter.mpr ⟨hr, by simp [hrp]⟩
      exact List.ne_nil_of_mem hmem
  constructor
  · rcases foldl_max_eq_or_mem (sfxList rows p) 0 with h0 | hmem
    · rcases List.exists_mem_of_ne_nil _ hne with ⟨x, hx⟩
      have hx0 : x ≤ 0 := by
        have := foldl_max_le_of_mem (sfxList rows p) 0 x hx
        rw [h0] at this
        exact this
      have : x = 0 := le_antisymm hx0 (hnn x hx)
      rw [hmax, h0, ← this]
      exact hx
    · rw [hmax]
      exact hmem
  · intro s hs
    rw [hmax]
    exact foldl_max_le_of_mem (sfxList rows p) 0 s hs

/-- Concrete instantiation of `catalog_max_value_is_max`: a parameter with
codes 81A-1, 81A-7, 81A-2 stores max-value 7, which is among the suffixes
and bounds them. -/
theorem catalog_max_value_is_max_witness :
    (7 : Int) ∈ sfxList [⟨"81A", "81A-1", "d1"⟩, ⟨"81A", "81A-7", "d7"⟩,
        ⟨"81A", "81A-2", "d2"⟩] "81A" ∧
    ∀ s ∈ sfxList [⟨"81A", "81A-1", "d1"⟩, ⟨"81A", "81A-7", "d7"⟩,
        ⟨"81A", "81A-2", "d2"⟩] "81A", s ≤ (7 : Int) :=
  catalog_max_value_is_max
    [⟨"81A", "81A-1", "d1"⟩, ⟨"81A", "81A-7", "d7"⟩, ⟨"81A", "81A-2", "d2"⟩]
    [("81A", ⟨7, [("81A-1", "d1"), ("81A-7", "d7"), ("81A-2", "d2")]⟩)]
    "81A" ⟨7, [("81A-1", "d1"), ("81A-7", "d7"), ("81A-2", "d2")]⟩
    (by decide) (by decide) (by decide)

/-- C6 counterexample: for the code ID "81A-1-2", which contains two
separators, the loader stores max-value 1 (the integer after the first
separator), while the integer after the final separator is 2. -/
theorem suffix_first_separator_counterexample :
    get_feature_description [⟨"81A", "81A-1-2", "d"⟩]
      = some [("81A", ⟨1, [("81A-1-2", "d")]⟩)] ∧
    pyInt ((pySplitDash "81A-1-2").getLast?.getD "") = some 2 := by
  decide

/-- C6 amended: the numeric suffix of a code ID is parsed from the field
after the first separator (index 1 of the dash-split), not the last: a
one-row table whose code ID has that field parsing to `s ≥ 0` stores `s`
as the parameter's max-value. -/
theorem suffix_after_first_separator (p idv desc tok : String) (s : Int)
    (htok : (pySplitDash idv)[1]? = some tok) (hs : pyInt tok = some s)
    (hnn : 0 ≤ s) :
    get_feature_description [⟨p, idv, desc⟩] = some [(p, ⟨s, [(idv, desc)]⟩)] := by
  have hsfx : pySuffix idv = some s := by
    simp [pySuffix, htok, hs]
  simp only [get_feature_description, loadCodes, stepCatalog, hsfx]
  simp [pyGet, pyInsert, containsKey, replaceKey, max_eq_right hnn]

/-- Concrete instantiation of `suffix_after_first_separator` at the
ordinary one-separator code ID "81A-5". -/
theorem suffix_after_first_separator_witness :
    get_feature_description [⟨"81A", "81A-5", "d"⟩]
      = some [("81A", ⟨5, [("81A-5", "d")]⟩)] :=
  suffix_after_first_separator "81A" "81A-5" "d" "5" 5 (by decide) (by decide)
    (by decide)

/-! ## Language directory lemmas -/

lemma findName_congr (d : List (String × LangDesc)) (s t : String)
    (h : pyNormalize s = pyNormalize t) : findName s d = findName t d := by
  induction d with
  | nil => rfl
  | cons kv rest ih => simp only [findName, h, ih]

lemma findName_eq_none (nm : String) (d : List (String × LangDesc))
    (h : ∀ kv ∈ d, pyNormalize kv.2.Name ≠ pyNormalize nm) : findName nm d = none := by
  induction d with
  | nil => rfl
  | cons kv rest ih =>
    simp only [findName, if_neg (h kv (List.mem_cons_self kv rest))]
    exact ih (fun kv2 h2 => h kv2 (List.mem_cons_of_mem kv h2))

lemma containsKey_append {α β : Type} [DecidableEq α] (d1 d2 : List (α × β)) (k : α) :
    containsKey (d1 ++ d2) k = (containsKey d1 k || containsKey d2 k) := by
  induction d1 with
  | nil => simp [containsKey]
  | cons kv rest ih =>
    by_cases hk : kv.1 = k <;> simp [containsKey, hk, ih]

lemma initLangAux_eq (rows : List LangRow) :
    ∀ d : List (String × LangDesc),
      (∀ r ∈ rows, containsKey d r.ISO639P3code = false) →
      (rows.map LangRow.ISO639P3code).Nodup →
      initLangAux d rows = d ++ rows.map (fun r => (r.ISO639P3code, toDesc r)) := by
  induction rows with
  | nil => intro d _ _; simp [initLangAux]
  | cons r rest ih =>
    intro d hfresh hnd
    simp only [initLangAux]
    have hc : containsKey d r.ISO639P3code = false := hfresh r (List.mem_cons_self r rest)
    have hins : pyInsert d r.ISO639P3code (toDesc r) = d ++ [(r.ISO639P3code, toDesc r)] := by
      simp [pyInsert, hc]
    have hndc : LangRow.ISO639P3code r ∉ rest.map LangRow.ISO639P3code ∧
        (rest.map LangRow.ISO639P3code).Nodup := by
      rw [List.map_cons] at hnd
      exact List.nodup_cons.mp hnd
    have hfresh2 : ∀ r2 ∈ rest,
        containsKey (d ++ [(r.ISO639P3code, toDesc r)]) r2.ISO639P3code = false := by
      intro r2 h2
      have h3 : containsKey d r2.ISO639P3code = false :=
        hfresh r2 (List.mem_cons_of_mem r h2)
      have h4 : ¬ (r.ISO639P3code = r2.ISO639P3code) := by
        intro he
        exact hndc.1 (he ▸ List.mem_map_of_mem LangRow.ISO639P3code h2)
      rw [containsKey_append, h3]
      simp [containsKey, h4]
    rw [hins, ih (d ++ [(r.ISO639P3code, toDesc r)]) hfresh2 hndc.2]
    simp

lemma init_language_eq (rows : List LangRow)
    (hnd : (rows.map LangRow.ISO639P3code).Nodup) :
    init_language_info rows = rows.map (fun r => (r.ISO639P3code, toDesc r)) := by
  have := initLangAux_eq rows [] (by intro r _; rfl) hnd
  simpa [init_language_info] using this

lemma findName_map_rows (nm : String) (rows : List LangRow) :
    findName nm (rows.map (fun r => (r.ISO639P3code, toDesc r)))
      = (firstByName nm rows).map toDesc := by
  induction rows with
  | nil => rfl
  | cons r rest ih =>
    have hname : (toDesc r).Name = r.Name := rfl
    simp only [List.map_cons, findName, firstByName, hname]
    by_cases h : pyNormalize r.Name = pyNormalize nm
    · simp [h]
    · simp [h, ih]

/-- C7 counterexample: supplying both the identifier and the name does not
raise; the identifier lookup wins and a record is returned. -/
theorem lookup_both_args_counterexample :
    get_language_info
      [("eng", ⟨"English", "eng", "Eurasia", "Indo-European", "Germanic", "West",
        "engl123"⟩)]
      (some "eng") (some "English")
      = .ok (some ⟨"English", "eng", "Eurasia", "Indo-European", "Germanic", "West",
        "engl123"⟩) := rfl

/-- C7 amended: `get_language_info` raises the `ValueError` exactly when
neither argument is truthy; when a truthy identifier is supplied the
identifier lookup is used regardless of the name argument, with no error. -/
theorem lookup_arg_validation (d : List (String × LangDesc))
    (lid lname : Option String) :
    (truthy lid = false → truthy lname = false →
      get_language_info d lid lname
        = .error "Provide either language ID or language name.") ∧
    (truthy lid = true →
      get_language_info d lid lname = .ok (pyGet d (lid.getD ""))) := by
  constructor
  · intro h1 h2
    simp [get_language_info, h1, h2]
  · intro h1
    simp [get_language_info, h1]

/-- Concrete instantiation of `lookup_arg_validation`: no arguments raise
the error; identifier plus name return the identifier lookup. -/
theorem lookup_arg_validation_witness :
    get_language_info ([] : List (String × LangDesc)) none none
      = .error "Provide either language ID or language name." ∧
    get_language_info
      [("deu", ⟨"German", "deu", "Eurasia", "Indo-European", "Germanic", "West",
        "germ123"⟩)]
      (some "deu") (some "German")
      = .ok (pyGet
        [("deu", ⟨"German", "deu", "Eurasia", "Indo-European", "Germanic", "West",
          "germ123"⟩)] "deu") :=
  ⟨(lookup_arg_validation [] none none).1 rfl rfl,
   (lookup_arg_validation _ (some "deu") (some "German")).2 rfl⟩

/-- C9 counterexample: the empty-string identifier is absent from the
directory, yet the call raises the `ValueError` instead of returning the
none result, because Python treats the empty string as not supplied. -/
theorem empty_identifier_counterexample :
    pyGet [("eng", (⟨"English", "eng", "Eurasia", "Indo-European", "Germanic",
        "West", "engl123"⟩ : LangDesc))] "" = none ∧
    get_language_info
      [("eng", ⟨"English", "eng", "Eurasia", "Indo-European", "Germanic", "West",
        "engl123"⟩)]
      (some "") none
      = .error "Provide either language ID or language name." :=
  ⟨rfl, rfl⟩

/-- C9 amended: for every non-empty identifier absent from the directory,
and every non-empty name matching no stored record, `get_language_info`
returns the explicit none result rather than raising; the empty string is
treated as an unsupplied argument. -/
theorem absent_language_returns_none (d : List (String × LangDesc))
    (lid lname : String) :
    (lid ≠ "" → pyGet d lid = none →
      get_language_info d (some lid) none = .ok none) ∧
    (lname ≠ "" → (∀ kv ∈ d, pyNormalize kv.2.Name ≠ pyNormalize lname) →
      get_language_info d none (some lname) = .ok none) := by
  constructor
  · intro h1 h2
    have ht : truthy (some lid) = true := by simp [truthy, h1]
    simp [get_language_info, ht, h2]
  · intro h1 h2
    simp [get_language_info, truthy, h1, findName_eq_none lname d h2]

/-- Concrete instantiation of `absent_language_returns_none` at the absent
identifier "zzz" and the absent name "Nope". -/
theorem absent_language_returns_none_witness :
    get_language_info
      [("eng", ⟨"English", "eng", "Eurasia", "Indo-European", "Germanic", "West",
        "engl123"⟩)] (some "zzz") none = .ok none ∧
    get_language_info
      [("eng", ⟨"English", "eng", "Eurasia", "Indo-European", "Germanic", "West",
        "engl123"⟩)] none (some "Nope") = .ok none :=
  ⟨(absent_language_returns_none _ "zzz" "x").1 (by decide) (by decide),
   (absent_language_returns_none _ "x" "Nope").2 (by decide) (by decide)⟩

/-- C8: name lookup depends on the query only through stripping and
case-folding, and on a directory built from rows with distinct ISO codes
it returns the record of the first row, in file order, whose normalised
name matches. -/
theorem name_lookup_case_insensitive_first_match (d : List (String × LangDesc))
    (rows : List LangRow) (s t : String) (hs : s ≠ "") :
    (t ≠ "" → pyNormalize s = pyNormalize t →
      get_language_info d none (some s) = get_language_info d none (some t)) ∧
    ((rows.map LangRow.ISO639P3code).Nodup →
      get_language_info (init_language_info rows) none (some s)
        = .ok ((firstByName s rows).map toDesc)) := by
  constructor
  · intro ht hnorm
    simp [get_language_info, truthy, hs, ht, findName_congr d s t hnorm]
  · intro hnd
    simp [get_language_info, truthy, hs, init_language_eq rows hnd,
      findName_map_rows s rows]

/-- Concrete instantiation of `name_lookup_case_insensitive_first_match`:
"English" and " english " give the same result, and lookup on a one-row
directory returns that row's record. -/
theorem name_lookup_case_insensitive_first_match_witness :
    get_language_info
      [("eng", ⟨"English", "eng", "Eurasia", "Indo-European", "Germanic", "West",
        "engl123"⟩)] none (some "English")
      = get_language_info
        [("eng", ⟨"English", "eng", "Eurasia", "Indo-European", "Germanic", "West",
          "engl123"⟩)] none (some " english ") ∧
    get_language_info
      (init_language_info
        [⟨"engl123", "English", "eng", "Eurasia", "Indo-European", "Germanic",
          "West"⟩]) none (some "ENGLISH")
      = .ok ((firstByName "ENGLISH"
          [⟨"engl123", "English", "eng", "Eurasia", "Indo-European", "Germanic",
            "West"⟩]).map toDesc) :=
  ⟨(name_lookup_case_insensitive_first_match _ [] "English" " english "
      (by decide)).1 (by decide) (by decide),
   (name_lookup_case_insensitive_first_match []
      [⟨"engl123", "English", "eng", "Eurasia", "Indo-European", "Germanic",
        "West"⟩] "ENGLISH" "x" (by decide)).2 (by decide)⟩

/-! ## Position-map lemmas -/

/-- Indexed pairs `(n, fs[0]), (n+1, fs[1]), ...`: the shape `idx2feature`
takes on a duplicate-free feature list. -/
def enumIdx (n : Nat) : List String → List (Nat × String)
  | [] => []
  | f :: rest => (n, f) :: enumIdx (n + 1) rest

/-- The shape `feature2idx` takes on a duplicate-free feature list. -/
def swapEnum (n : Nat) (fs : List String) : List (String × Nat) :=
  (enumIdx n fs).map (fun q => (q.2, q.1))

lemma enumIdx_length (fs : List String) : ∀ n, (enumIdx n fs).length = fs.length := by
  induction fs with
  | nil => intro n; rfl
  | cons f rest ih => intro n; simp [enumIdx, ih]

lemma swapEnum_length (fs : List String) (n : Nat) :
    (swapEnum n fs).length = fs.length := by
  simp [swapEnum, enumIdx_length]

lemma containsKey_eq_false_of_forall {α β : Type} [DecidableEq α]
    (d : List (α × β)) (k : α) (h : ∀ kv ∈ d, kv.1 ≠ k) : containsKey d k = false := by
  induction d with
  | nil => rfl
  | cons kv rest ih =>
    simp only [containsKey, if_neg (h kv (List.mem_cons_self kv rest))]
    exact ih (fun kv2 h2 => h kv2 (List.mem_cons_of_mem kv h2))

lemma buildMapsAux_eq (fs : List String) :
    ∀ (f2i : List (String × Nat)) (i2f : List (Nat × String)) (n : Nat),
      f2i.length = n → i2f.length = n →
      (∀ f ∈ fs, containsKey f2i f = false) → fs.Nodup →
      (∀ kv ∈ i2f, kv.1 < n) →
      buildMapsAux fs f2i i2f = (f2i ++ swapEnum n fs, i2f ++ enumIdx n fs) := by
  induction fs with
  | nil => intro f2i i2f n _ _ _ _ _; simp [buildMapsAux, swapEnum, enumIdx]
  | cons f rest ih =>
    intro f2i i2f n hlen1 hlen2 hfresh hnd hbnd
    have hndc := List.nodup_cons.mp hnd
    have hcf : containsKey f2i f = false := hfresh f (List.mem_cons_self f rest)
    have hci : containsKey i2f n = false := by
      refine containsKey_eq_false_of_forall i2f n (fun kv hkv => ?_)
      have := hbnd kv hkv
      omega
    have hins1 : pyInsert f2i f f2i.length = f2i ++ [(f, n)] := by
      simp [pyInsert, hcf, hlen1]
    have hins2 : pyInsert i2f i2f.length f = i2f ++ [(n, f)] := by
      rw [hlen2]
      simp [pyInsert, hci]
    simp only [buildMapsAux, hins1, hins2]
    have hfresh2 : ∀ g ∈ rest, containsKey (f2i ++ [(f, n)]) g = false := by
      intro g hg
      rw [containsKey_append, hfresh g (List.mem_cons_of_mem f hg)]
      have hfg : ¬ (f = g) := fun he => hndc.1 (he ▸ hg)
      simp [containsKey, hfg]
    have hbnd2 : ∀ kv ∈ i2f ++ [(n, f)], kv.1 < n + 1 := by
      intro kv hkv
      rcases List.mem_append.mp hkv with h1 | h1
      · have := hbnd kv h1; omega
      · simp at h1
        subst h1
        exact Nat.lt_succ_self n
    rw [ih (f2i ++ [(f, n)]) (i2f ++ [(n, f)]) (n + 1)
      (by simp [hlen1]) (by simp [hlen2]) hfresh2 hndc.2 hbnd2]
    simp [swapEnum, enumIdx]

lemma buildMaps_eq (fs : List String) (hnd : fs.Nodup) :
    buildMaps fs = (swapEnum 0 fs, enumIdx 0 fs) := by
  have := buildMapsAux_eq fs [] [] 0 rfl rfl (fun f _ => rfl) hnd (by simp)
  simpa [buildMaps] using this

lemma pyGet_enumIdx (fs : List String) :
    ∀ (n i : Nat) (h : i < fs.length),
      pyGet (enumIdx n fs) (n + i) = some (fs.get ⟨i, h⟩) := by
  induction fs with
  | nil => intro n i h; simp at h
  | cons f rest ih =>
    intro n i h
    cases i with
    | zero => simp [enumIdx, pyGet]
    | succ i =>
      have hlt := Nat.lt_of_succ_lt_succ h
      have hne : ¬ (n = n + (i + 1)) := by omega
      have hget : (f :: rest).get ⟨i + 1, h⟩ = rest.get ⟨i, hlt⟩ := rfl
      rw [hget]
      show (if n = n + (i + 1) then some f else pyGet (enumIdx (n + 1) rest) (n + (i + 1)))
        = some (rest.get ⟨i, hlt⟩)
      rw [if_neg hne, show n + (i + 1) = (n + 1) + i by omega]
      exact ih (n + 1) i hlt

lemma pyGet_enumIdx_inv (fs : List String) :
    ∀ (n k : Nat) (f : String), pyGet (enumIdx n fs) k = some f →
      ∃ i, ∃ h : i < fs.length, k = n + i ∧ fs.get ⟨i, h⟩ = f := by
  induction fs with
  | nil => intro n k f h; simp [enumIdx, pyGet] at h
  | cons g rest ih =>
    intro n k f h
    simp only [enumIdx, pyGet] at h
    by_cases hk : n = k
    · rw [if_pos hk] at h
      simp only [Option.some.injEq] at h
      exact ⟨0, Nat.succ_pos rest.length, by omega, h⟩
    · rw [if_neg hk] at h
      rcases ih (n + 1) k f h with ⟨i, hi, hk2, hget⟩
      exact ⟨i + 1, Nat.succ_lt_succ hi, by omega, hget⟩

lemma pyGet_swapEnum (fs : List String) :
    ∀ (n i : Nat) (h : i < fs.length), fs.Nodup →
      pyGet (swapEnum n fs) (fs.get ⟨i, h⟩) = some (n + i) := by
  induction fs with
  | nil => intro n i h _; simp at h
  | cons f rest ih =>
    intro n i h hnd
    have hndc := List.nodup_cons.mp hnd
    cases i with
    | zero => simp [swapEnum, enumIdx, pyGet]
    | succ i =>
      have hlt := Nat.lt_of_succ_lt_succ h
      have hget : (f :: rest).get ⟨i + 1, h⟩ = rest.get ⟨i, hlt⟩ := rfl
      have hne : ¬ (f = rest.get ⟨i, hlt⟩) := by
        intro he
        exact hndc.1 (he ▸ List.get_mem rest i hlt)
      rw [hget]
      show (if f = rest.get ⟨i, hlt⟩ then some n
          else pyGet ((enumIdx (n + 1) rest).map (fun q => (q.2, q.1))) (rest.get ⟨i, hlt⟩))
        = some (n + (i + 1))
      rw [if_neg hne, show n + (i + 1) = (n + 1) + i by omega]
      exact ih (n + 1) i hlt hndc.2

lemma pyGet_swapEnum_inv (fs : List String) :
    ∀ (n k : Nat) (q : String), pyGet (swapEnum n fs) q = some k →
      ∃ i, ∃ h : i < fs.length, k = n + i ∧ fs.get ⟨i, h⟩ = q := by
  induction fs with
  | nil => intro n k q h; simp [swapEnum, enumIdx, pyGet] at h
  | cons g rest ih =>
    intro n k q h
    simp only [swapEnum, enumIdx, List.map_cons, pyGet] at h
    by_cases hq : g = q
    · rw [if_pos hq] at h
      simp only [Option.some.injEq] at h
      exact ⟨0, Nat.succ_pos rest.length, by omega, hq⟩
    · rw [if_neg hq] at h
      rcases ih (n + 1) k q h with ⟨i, hi, hk2, hget⟩
      exact ⟨i + 1, Nat.succ_lt_succ hi, by omega, hget⟩

/-- C4 counterexample: on the feature set `["a", "b", "a", "b"]` (the data
model allows duplicates), the maps are not a bijection onto positions
0..n-1 and the round trip fails: `feature2idx["b"] = 2` but
`idx2feature[2] = "a"`. -/
theorem position_map_duplicate_counterexample :
    get_feature_vector [] false none (some ["a", "b", "a", "b"])
      = .ok ([("a", 2), ("b", 2)], [(0, "a"), (1, "b"), (2, "a"), (3, "b")]) ∧
    (pyGet [("a", (2 : Nat)), ("b", 2)] "b").bind
        (pyGet [((0 : Nat), "a"), (1, "b"), (2, "a"), (3, "b")]) = some "a" ∧
    ¬ ((pyGet [("a", (2 : Nat)), ("b", 2)] "b").bind
        (pyGet [((0 : Nat), "a"), (1, "b"), (2, "a"), (3, "b")]) = some "b") :=
  ⟨rfl, by decide, by decide⟩

/-- C4 amended: on a duplicate-free feature set the position map built by
`get_feature_vector` is a bijection with the contiguous positions 0..n-1
preserving input order, and `idx2feature[feature2idx[f]] = f` holds for
every feature of the set. -/
theorem position_map_bijection_nodup (f2d : Catalog) (fs : List String)
    (hne : fs ≠ []) (hnd : fs.Nodup) :
    ∃ f2i i2f, get_feature_vector f2d false none (some fs) = .ok (f2i, i2f) ∧
      f2i.length = fs.length ∧ i2f.length = fs.length ∧
      (∀ i, ∀ h : i < fs.length,
        pyGet i2f i = some (fs.get ⟨i, h⟩) ∧ pyGet f2i (fs.get ⟨i, h⟩) = some i) ∧
      (∀ f ∈ fs, (pyGet f2i f).bind (pyGet i2f) = some f) := by
  have hfs : fs.isEmpty = false := by
    cases fs with
    | nil => exact absurd rfl hne
    | cons f rest => rfl
  have hgfv : get_feature_vector f2d false none (some fs) = .ok (buildMaps fs) := by
    simp [get_feature_vector, truthy, hfs]
  rw [buildMaps_eq fs hnd] at hgfv
  refine ⟨swapEnum 0 fs, enumIdx 0 fs, hgfv, swapEnum_length fs 0,
    enumIdx_length fs 0, ?_, ?_⟩
  · intro i h
    constructor
    · have := pyGet_enumIdx fs 0 i h
      simpa using this
    · have := pyGet_swapEnum fs 0 i h hnd
      simpa using this
  · intro f hf
    rcases List.mem_iff_get.mp hf with ⟨⟨i, hi⟩, hget⟩
    have h1 : pyGet (swapEnum 0 fs) f = some i := by
      have := pyGet_swapEnum fs 0 i hi hnd
      rw [hget] at this
      simpa using this
    have h2 : pyGet (enumIdx 0 fs) i = some f := by
      have := pyGet_enumIdx fs 0 i hi
      rw [hget] at this
      simpa using this
    simp [h1, h2]

/-- Concrete instantiation of `position_map_bijection_nodup` on the
two-feature set `["81A", "82A"]`. -/
theorem position_map_bijection_nodup_witness :
    ∃ f2i i2f, get_feature_vector [] false none (some ["81A", "82A"])
        = .ok (f2i, i2f) ∧
      f2i.length = (["81A", "82A"] : List String).length ∧
      i2f.length = (["81A", "82A"] : List String).length ∧
      (∀ i, ∀ h : i < (["81A", "82A"] : List String).length,
        pyGet i2f i = some ((["81A", "82A"] : List String).get ⟨i, h⟩) ∧
        pyGet f2i ((["81A", "82A"] : List String).get ⟨i, h⟩) = some i) ∧
      (∀ f ∈ (["81A", "82A"] : List String),
        (pyGet f2i f).bind (pyGet i2f) = some f) :=
  position_map_bijection_nodup [] ["81A", "82A"] (by decide) (by decide)

/-! ## Binarization lemmas -/

lemma codeIDs_length (f : String) (mv : Int) : (codeIDs f mv).length = mv.toNat := by
  simp [codeIDs]

lemma binarize_ok (f2d : Catalog) (fs : List String)
    (hall : ∀ f ∈ fs, (pyGet f2d f).isSome) :
    binarize_feature_set f2d fs
      = .ok (fs.flatMap (fun f => codeIDs f (maxValOf f2d f))) := by
  induction fs with
  | nil => rfl
  | cons f rest ih =>
    rcases Option.isSome_iff_exists.mp (hall f (List.mem_cons_self f rest)) with
      ⟨info, hinfo⟩
    have hmv : maxValOf f2d f = info.max_value := by simp [maxValOf, hinfo]
    simp only [binarize_feature_set, hinfo,
      ih (fun g hg => hall g (List.mem_cons_of_mem f hg)), List.flatMap_cons, hmv]
    rfl

lemma binarize_err (f2d : Catalog) (fs : List String) :
    (∃ f ∈ fs, pyGet f2d f = none) →
      binarize_feature_set f2d fs
        = .error "Invalid feature ID in binarize_feature_set()" := by
  induction fs with
  | nil => intro hex; simp at hex
  | cons f rest ih =>
    intro hex
    cases hf : pyGet f2d f with
    | none => simp [binarize_feature_set, hf]
    | some info =>
      rcases hex with ⟨g, hg, hnone⟩
      rcases List.mem_cons.mp hg with heq | hg2
      · subst heq
        rw [hf] at hnone
        exact absurd hnone (by simp)
      · simp [binarize_feature_set, hf, ih ⟨g, hg2, hnone⟩, Except.map]

/-- C3: with binarize true, resolving a feature set replaces each
parameter `p`, in place and in ascending suffix order, by
`p-1 .. p-max_value(p)`, the total length being the sum of the
max-values, and it fails with the unknown-feature error exactly when some
input parameter is absent from the catalog. -/
theorem binarize_expansion_correct (f2d : Catalog) (fs : List String) :
    ((∀ f ∈ fs, (pyGet f2d f).isSome) →
      binarize_feature_set f2d fs
        = .ok (fs.flatMap (fun f => codeIDs f (maxValOf f2d f))) ∧
      (fs.flatMap (fun f => codeIDs f (maxValOf f2d f))).length
        = (fs.map (fun f => (maxValOf f2d f).toNat)).sum) ∧
    ((∃ f ∈ fs, pyGet f2d f = none) →
      binarize_feature_set f2d fs
        = .error "Invalid feature ID in binarize_feature_set()") := by
  constructor
  · intro hall
    refine ⟨binarize_ok f2d fs hall, ?_⟩
    rw [List.length_flatMap]
    exact congrArg List.sum
      (List.map_congr_left (fun f _ => codeIDs_length f (maxValOf f2d f)))
  · exact binarize_err f2d fs

/-- Concrete instantiation of `binarize_expansion_correct`: a parameter
with max-value 2 expands to its two codes, a parameter outside the catalog
raises the error. -/
theorem binarize_expansion_correct_witness :
    binarize_feature_set [("81A", ⟨2, [("81A-1", "x"), ("81A-2", "y")]⟩)] ["81A"]
      = .ok ["81A-1", "81A-2"] ∧
    binarize_feature_set [("81A", ⟨2, [("81A-1", "x"), ("81A-2", "y")]⟩)] ["99Z"]
      = .error "Invalid feature ID in binarize_feature_set()" :=
  ⟨((binarize_expansion_correct
      [("81A", ⟨2, [("81A-1", "x"), ("81A-2", "y")]⟩)] ["81A"]).1 (by decide)).1,
   (binarize_expansion_correct
      [("81A", ⟨2, [("81A-1", "x"), ("81A-2", "y")]⟩)] ["99Z"]).2
     ⟨"99Z", by decide, by decide⟩⟩

/-! ## Scan lemmas for `get_language_vector` -/

lemma find?_reverse_cons {α : Type} (p : α → Bool) (r : α) (rest : List α) :
    (r :: rest).reverse.find? p
      = (rest.reverse.find? p).or (if p r then some r else none) := by
  rw [List.reverse_cons, List.find?_append]
  congr 1
  cases hp : p r <;> simp [List.find?, hp]

lemma scanRows_spec (binary : Bool) (L : String) (m : List (String × Nat))
    (rows : List ValueRow) :
    ∀ vec : List Int,
      (∀ kv ∈ m, kv.2 < vec.length) →
      (∀ r ∈ rows, r.Language_ID = L → (pyGet m (rowKey binary r)).isSome →
        (rowVal binary r).isSome) →
      ∃ out, scanRows binary L m rows vec = some out ∧ out.length = vec.length ∧
        ∀ i, i < vec.length →
          out[i]? = (match rows.reverse.find? (writesTo binary L m i) with
            | none => vec[i]?
            | some r => some ((rowVal binary r).getD 0)) := by
  induction rows with
  | nil =>
    intro vec hbound hparse
    refine ⟨vec, rfl, rfl, fun i hi => ?_⟩
    simp
  | cons r rest ih =>
    intro vec hbound hparse
    have hparse2 : ∀ r2 ∈ rest, r2.Language_ID = L →
        (pyGet m (rowKey binary r2)).isSome → (rowVal binary r2).isSome :=
      fun r2 h2 => hparse r2 (List.mem_cons_of_mem r h2)
    by_cases hL : r.Language_ID = L
    · cases hk : pyGet m (rowKey binary r) with
      | none =>
        have happ : applyRow binary L m vec r = some vec := by
          simp [applyRow, hL, hk]
        obtain ⟨out, hscan, hlen, hslot⟩ := ih vec hbound hparse2
        refine ⟨out, by simp [scanRows, happ, hscan], hlen, fun i hi => ?_⟩
        have hw : writesTo binary L m i r = false := by
          simp [writesTo, hk]
        rw [hslot i hi, find?_reverse_cons, hw]
        cases rest.reverse.find? (writesTo binary L m i) <;> rfl
      | some i0 =>
        have hvs : (rowVal binary r).isSome :=
          hparse r (List.mem_cons_self r rest) hL (by simp [hk])
        rcases Option.isSome_iff_exists.mp hvs with ⟨v0, hv0⟩
        have hi0 : i0 < vec.length := hbound _ (pyGet_mem m _ i0 hk)
        have happ : applyRow binary L m vec r = some (vec.set i0 v0) := by
          simp [applyRow, hL, hk, hv0, pySet, hi0]
        have hbound2 : ∀ kv ∈ m, kv.2 < (vec.set i0 v0).length := by
          simpa using hbound
        obtain ⟨out, hscan, hlen, hslot⟩ := ih (vec.set i0 v0) hbound2 hparse2
        refine ⟨out, by simp [scanRows, happ, hscan], by simpa using hlen,
          fun i hi => ?_⟩
        have hwr : writesTo binary L m i r = decide (i0 = i) := by
          simp [writesTo, hL, hk]
        rw [hslot i (by simpa using hi), find?_reverse_cons, hwr]
        cases hfind : rest.reverse.find? (writesTo binary L m i) with
        | some r2 => rfl
        | none =>
          by_cases hii : i0 = i
          · subst hii
            simp [Option.none_or, List.getElem?_set, hi0, hv0]
          · simp [Option.none_or, hii, List.getElem?_set]
    · have happ : applyRow binary L m vec r = some vec := by
        simp [applyRow, hL]
      obtain ⟨out, hscan, hlen, hslot⟩ := ih vec hbound hparse2
      refine ⟨out, by simp [scanRows, happ, hscan], hlen, fun i hi => ?_⟩
      have hw : writesTo binary L m i r = false := by
        simp [writesTo, hL]
      rw [hslot i hi, find?_reverse_cons, hw]
      cases rest.reverse.find? (writesTo binary L m i) <;> rfl

/-- C1 counterexample: an empty position map is falsy in Python, so
`get_language_vector` silently replaces it with the default all-features
map; with a one-parameter catalog the returned vector has length 1, not
the length 0 of the supplied map. -/
theorem glv_empty_map_counterexample :
    get_language_vector [("81A", ⟨1, [("81A-1", "d")]⟩)] false [] "x" (some [])
      = some [0] ∧
    ¬ (get_language_vector [("81A", ⟨1, [("81A-1", "d")]⟩)] false [] "x" (some [])
      = some ([] : List Int)) :=
  ⟨rfl, by decide⟩

/-- C1 amended: for every language id, values table, and supplied
NON-EMPTY position map whose positions lie below its size and whose
matching rows parse (in non-binary mode), `get_language_vector` returns
the vector of the map's length in which slot `i` holds the value of the
last row of the target language writing to `i` (the parsed value, or 1 in
binary mode) and 0 when no row writes to it; rows for other languages or
unmapped features are skipped. An empty map is treated as unsupplied. -/
theorem glv_scan_characterization (f2d : Catalog) (binary : Bool)
    (rows : List ValueRow) (L : String) (m : List (String × Nat))
    (hne : m ≠ [])
    (hbound : ∀ kv ∈ m, kv.2 < m.length)
    (hparse : ∀ r ∈ rows, r.Language_ID = L → (pyGet m (rowKey binary r)).isSome →
      (rowVal binary r).isSome) :
    ∃ out, get_language_vector f2d binary rows L (some m) = some out ∧
      out.length = m.length ∧
      ∀ i, i < m.length →
        out[i]? = (match rows.reverse.find? (writesTo binary L m i) with
          | none => some 0
          | some r => some ((rowVal binary r).getD 0)) := by
  have hie : m.isEmpty = false := by
    cases m with
    | nil => exact absurd rfl hne
    | cons kv rest => rfl
  have hbound2 : ∀ kv ∈ m, kv.2 < (List.replicate m.length (0 : Int)).length := by
    simpa using hbound
  obtain ⟨out, hscan, hlen, hslot⟩ :=
    scanRows_spec binary L m rows (List.replicate m.length 0) hbound2 hparse
  refine ⟨out, ?_, by simpa using hlen, fun i hi => ?_⟩
  · simp [get_language_vector, hie, hscan]
  · have := hslot i (by simpa using hi)
    rw [this]
    cases hf : rows.reverse.find? (writesTo binary L m i) <;>
      simp [List.getElem?_replicate, hi]

/-- Concrete instantiation of `glv_scan_characterization`: two rows for
the same parameter, the later one wins, unmatched slots stay 0. -/
theorem glv_scan_characterization_witness :
    ∃ out, get_language_vector [] false
        [⟨"eng", "81A", "3"⟩, ⟨"eng", "81A", "2"⟩, ⟨"deu", "82A", "9"⟩]
        "eng" (some [("81A", 0), ("82A", 1)]) = some out ∧
      out.length = ([("81A", (0 : Nat)), ("82A", 1)] : List (String × Nat)).length ∧
      ∀ i, i < ([("81A", (0 : Nat)), ("82A", 1)] : List (String × Nat)).length →
        out[i]? = (match ([⟨"eng", "81A", "3"⟩, ⟨"eng", "81A", "2"⟩,
              ⟨"deu", "82A", "9"⟩] : List ValueRow).reverse.find?
              (writesTo false "eng" [("81A", 0), ("82A", 1)] i) with
          | none => some 0
          | some r => some ((rowVal false r).getD 0)) :=
  glv_scan_characterization [] false
    [⟨"eng", "81A", "3"⟩, ⟨"eng", "81A", "2"⟩, ⟨"deu", "82A", "9"⟩]
    "eng" [("81A", 0), ("82A", 1)] (by decide) (by decide) (by decide)

/-- All-zero-or-one invariant of the binary scan, by induction over the
values table. -/
lemma scanRows_binary01 (L : String) (m : List (String × Nat))
    (rows : List ValueRow) :
    ∀ (vec out : List Int), (∀ x ∈ vec, x = 0 ∨ x = 1) →
      scanRows true L m rows vec = some out → ∀ x ∈ out, x = 0 ∨ x = 1 := by
  induction rows with
  | nil =>
    intro vec out h h2
    simp only [scanRows, Option.some.injEq] at h2
    subst h2
    exact h
  | cons r rest ih =>
    intro vec out h h2
    simp only [scanRows] at h2
    cases happ : applyRow true L m vec r with
    | none => rw [happ] at h2; exact absurd h2 (by simp)
    | some vec1 =>
      rw [happ] at h2
      refine ih vec1 out ?_ h2
      unfold applyRow at happ
      by_cases hL : r.Language_ID = L
      · rw [if_pos hL] at happ
        cases hk : pyGet m (rowKey true r) with
        | none =>
          rw [hk] at happ
          simp only [Option.some.injEq] at happ
          subst happ
          exact h
        | some i =>
          rw [hk] at happ
          have hrv : rowVal true r = some 1 := rfl
          rw [hrv] at happ
          simp only [pySet] at happ
          by_cases hi : i < vec.length
          · rw [if_pos hi] at happ
            simp only [Option.some.injEq] at happ
            subst happ
            intro x hx
            rcases List.mem_or_eq_of_mem_set hx with hx2 | hx2
            · exact h x hx2
            · exact Or.inr hx2
          · rw [if_neg hi] at happ
            exact absurd happ (by simp)
      · rw [if_neg hL] at happ
        simp only [Option.some.injEq] at happ
        subst happ
        exact h

/-- C10: in binary mode every entry of any vector returned by
`get_language_vector` is 0 or 1, for every catalog, values table, language
identifier and (optional) position map. -/
theorem binary_vector_entries_01 (f2d : Catalog) (rows : List ValueRow)
    (L : String) (mOpt : Option (List (String × Nat))) (out : List Int)
    (h : get_language_vector f2d true rows L mOpt = some out) :
    ∀ x ∈ out, x = 0 ∨ x = 1 := by
  unfold get_language_vector at h
  cases hE : (match mOpt with
    | some m =>
      if m.isEmpty then ((get_feature_vector f2d true none none).toOption).map Prod.fst
      else some m
    | none => ((get_feature_vector f2d true none none).toOption).map Prod.fst) with
  | none => rw [hE] at h; exact absurd h (by simp)
  | some m =>
    rw [hE] at h
    refine scanRows_binary01 L m rows (List.replicate m.length 0) out ?_ h
    intro x hx
    exact Or.inl (List.eq_of_mem_replicate hx)

/-- Concrete instantiation of `binary_vector_entries_01` at a one-slot
binary map receiving one observation. -/
theorem binary_vector_entries_01_witness : (1 : Int) = 0 ∨ (1 : Int) = 1 :=
  binary_vector_entries_01 [] [⟨"eng", "81A", "2"⟩] "eng" (some [("81A-2", 0)])
    [1] (by decide) 1 (by decide)

/-! ## Helper lemmas for the binary/non-binary consistency claim -/

lemma find?_eq_filter_head? {α : Type} (p : α → Bool) (l : List α) :
    l.find? p = (l.filter p).head? := by
  induction l with
  | nil => rfl
  | cons x rest ih =>
    cases hp : p x with
    | true => simp [List.find?, hp, List.filter_cons_of_pos hp]
    | false =>
      have hpn : ¬ p x = true := by simp [hp]
      rw [List.filter_cons_of_neg hpn, ← ih]
      simp [List.find?, hp]

lemma reverse_find?_of_filter_singleton {α : Type} (p : α → Bool) (l : List α)
    (a : α) (h : l.filter p = [a]) : l.reverse.find? p = some a := by
  rw [find?_eq_filter_head?, List.filter_reverse, h]
  rfl

lemma reverse_find?_of_filter_nil {α : Type} (p : α → Bool) (l : List α)
    (h : l.filter p = []) : l.reverse.find? p = none := by
  rw [find?_eq_filter_head?, List.filter_reverse, h]
  rfl

lemma filter_sub_singleton {α : Type} (p1 p2 : α → Bool) (l : List α) (a : α)
    (h1 : l.filter p1 = [a]) (himp : ∀ x ∈ l, p2 x = true → p1 x = true) :
    l.filter p2 = if p2 a then [a] else [] := by
  induction l with
  | nil => simp at h1
  | cons x rest ih =>
    by_cases hp1 : p1 x = true
    · rw [List.filter_cons_of_pos hp1] at h1
      injection h1 with hxa hrest
      subst hxa
      have hrest2 : rest.filter p2 = [] := by
        rw [List.filter_eq_nil_iff]
        intro b hb hpb
        have hp1b : p1 b = true := himp b (List.mem_cons_of_mem x hb) hpb
        exact (List.filter_eq_nil_iff.mp hrest) b hb hp1b
      by_cases hp2 : p2 x = true
      · rw [List.filter_cons_of_pos hp2, hrest2, if_pos hp2]
      · rw [List.filter_cons_of_neg hp2, hrest2, if_neg hp2]
    · rw [List.filter_cons_of_neg hp1] at h1
      have hp2x : ¬ p2 x = true := fun hp2 => hp1 (himp x (List.mem_cons_self x rest) hp2)
      rw [List.filter_cons_of_neg hp2x]
      exact ih h1 (fun b hb => himp b (List.mem_cons_of_mem x hb))

lemma sublist_flatMap_of_mem {α β : Type} (f : α → List β) (l : List α) (a : α)
    (h : a ∈ l) : (f a).Sublist (l.flatMap f) := by
  induction l with
  | nil => simp at h
  | cons x rest ih =>
    rcases List.mem_cons.mp h with rfl | h2
    · rw [List.flatMap_cons]
      exact List.sublist_append_left _ _
    · rw [List.flatMap_cons]
      exact (ih h2).trans (List.sublist_append_right _ _)

lemma mem_codeIDs (f : String) (mv : Int) (j : Nat) (h1 : 1 ≤ j)
    (h2 : (j : Int) ≤ mv) : f ++ "-" ++ pyStr j ∈ codeIDs f mv := by
  refine List.mem_map.mpr ⟨j - 1, List.mem_range.mpr (by omega), ?_⟩
  rw [show j - 1 + 1 = j by omega]

lemma nodup_range_map_inj (g : Nat → String) (n : Nat)
    (hnd : ((List.range n).map g).Nodup) (i j : Nat) (hi : i < n) (hj : j < n)
    (hne : i ≠ j) : g i ≠ g j := by
  intro he
  have hil : i < ((List.range n).map g).length := by simp [hi]
  have hjl : j < ((List.range n).map g).length := by simp [hj]
  have hgi : ((List.range n).map g).get ⟨i, hil⟩ = g i := by simp
  have hgj : ((List.range n).map g).get ⟨j, hjl⟩ = g j := by simp
  have := (hnd.get_inj_iff).mp (hgi.trans (he.trans hgj.symm))
  exact hne (congrArg Fin.val this)

lemma mem_enumIdx (fs : List String) :
    ∀ (n : Nat) (q : Nat × String), q ∈ enumIdx n fs →
      ∃ i, ∃ h : i < fs.length, q = (n + i, fs.get ⟨i, h⟩) := by
  induction fs with
  | nil => intro n q hq; simp [enumIdx] at hq
  | cons f rest ih =>
    intro n q hq
    rcases List.mem_cons.mp hq with rfl | h2
    · exact ⟨0, Nat.succ_pos rest.length, by simp⟩
    · rcases ih (n + 1) q h2 with ⟨i, hi, hq2⟩
      exact ⟨i + 1, Nat.succ_lt_succ hi, by rw [hq2]; congr 1; omega⟩

lemma swapEnum_val_lt (fs : List String) (kv : String × Nat)
    (h : kv ∈ swapEnum 0 fs) : kv.2 < fs.length := by
  rcases List.mem_map.mp h with ⟨q, hq, hkv⟩
  rcases mem_enumIdx fs 0 q hq with ⟨i, hi, hq2⟩
  subst hq2
  rw [← hkv]
  simpa using hi

lemma glv_eq_scan (f2d : Catalog) (binary : Bool) (rows : List ValueRow)
    (L : String) (m : List (String × Nat)) (hne : m.isEmpty = false) :
    get_language_vector f2d binary rows L (some m)
      = scanRows binary L m rows (List.replicate m.length 0) := by
  simp [get_language_vector, hne]

/-- C5 counterexample: a values row with the non-canonical value string
"02". The non-binary slot for 81A parses to 2, but the binarized vector
over 81A's codes is all zeros, because the reconstructed code "81A-02" is
not the stored code ID "81A-2". -/
theorem binarized_vector_value_string_counterexample :
    get_feature_vector [("81A", ⟨2, [("81A-1", "x"), ("81A-2", "y")]⟩)] false
        none (some ["81A"]) = .ok ([("81A", 0)], [(0, "81A")]) ∧
    get_feature_vector [("81A", ⟨2, [("81A-1", "x"), ("81A-2", "y")]⟩)] true
        none (some ["81A"])
      = .ok ([("81A-1", 0), ("81A-2", 1)], [(0, "81A-1"), (1, "81A-2")]) ∧
    get_language_vector [("81A", ⟨2, [("81A-1", "x"), ("81A-2", "y")]⟩)] false
        [⟨"eng", "81A", "02"⟩] "eng" (some [("81A", 0)]) = some [2] ∧
    get_language_vector [("81A", ⟨2, [("81A-1", "x"), ("81A-2", "y")]⟩)] true
        [⟨"eng", "81A", "02"⟩] "eng" (some [("81A-1", 0), ("81A-2", 1)])
      = some [0, 0] :=
  ⟨rfl, rfl, by decide, by decide⟩

/-- C5 amended: for a language whose values table holds exactly one row
for parameter `p`, with canonical decimal value string `str(v)` and
`1 ≤ v ≤ max_value(p)`, and whose other rows neither collide with `p`'s
reconstructed codes nor fail to parse where mapped: the non-binarized
vector's slot for `p` equals `v`, and in the binarized vector exactly the
slot for code `p-v` equals 1 while every other `p-j` slot equals 0. -/
theorem binary_nonbinary_consistency (f2d : Catalog) (fs : List String)
    (p : String) (info : ParamInfo) (rows : List ValueRow) (L : String)
    (r0 : ValueRow) (v : Nat)
    (mps1 mps2 : List (String × Nat) × List (Nat × String))
    (hnd : fs.Nodup)
    (hp : p ∈ fs)
    (hinfo : pyGet f2d p = some info)
    (hall : ∀ f ∈ fs, (pyGet f2d f).isSome)
    (hbfsnd : (fs.flatMap (fun f => codeIDs f (maxValOf f2d f))).Nodup)
    (hgfv1 : get_feature_vector f2d false none (some fs) = .ok mps1)
    (hgfv2 : get_feature_vector f2d true none (some fs) = .ok mps2)
    (hrow : rows.filter
      (fun r => decide (r.Language_ID = L) && decide (r.Parameter_ID = p)) = [r0])
    (hval : r0.Value = pyStr v)
    (hvint : pyInt r0.Value = some (v : Int))
    (hv1 : 1 ≤ v)
    (hv2 : (v : Int) ≤ info.max_value)
    (hparse : ∀ r ∈ rows, r.Language_ID = L → r.Parameter_ID ∈ fs →
      (pyInt r.Value).isSome)
    (hnocol : ∀ r ∈ rows, r.Language_ID = L → r.Parameter_ID ≠ p →
      ∀ j : Nat, r.Parameter_ID ++ "-" ++ r.Value ≠ p ++ "-" ++ pyStr j) :
    ∃ out1 out2 i1,
      get_language_vector f2d false rows L (some mps1.1) = some out1 ∧
      pyGet mps1.1 p = some i1 ∧ out1[i1]? = some ((v : Nat) : Int) ∧
      get_language_vector f2d true rows L (some mps2.1) = some out2 ∧
      ∀ j : Nat, 1 ≤ j → (j : Int) ≤ info.max_value →
        ∃ i, pyGet mps2.1 (p ++ "-" ++ pyStr j) = some i ∧
          out2[i]? = some (if j = v then (1 : Int) else 0) := by
  have hfsne : fs ≠ [] := List.ne_nil_of_mem hp
  have hfsE : fs.isEmpty = false := by
    cases fs with
    | nil => exact absurd rfl hfsne
    | cons a b => rfl
  have hmvp : maxValOf f2d p = info.max_value := by simp [maxValOf, hinfo]
  -- resolve the two position maps
  have h1 : get_feature_vector f2d false none (some fs) = .ok (buildMaps fs) := by
    simp [get_feature_vector, truthy, hfsE]
  have hbin : binarize_feature_set f2d fs
      = .ok (fs.flatMap (fun f => codeIDs f (maxValOf f2d f))) :=
    binarize_ok f2d fs hall
  have h2 : get_feature_vector f2d true none (some fs)
      = .ok (buildMaps (fs.flatMap (fun f => codeIDs f (maxValOf f2d f)))) := by
    simp [get_feature_vector, truthy, hfsE, hbin]
  have hfst1 : mps1.1 = swapEnum 0 fs := by
    rw [h1] at hgfv1
    simp only [Except.ok.injEq] at hgfv1
    rw [← hgfv1, buildMaps_eq fs hnd]
  have hfst2 : mps2.1
      = swapEnum 0 (fs.flatMap (fun f => codeIDs f (maxValOf f2d f))) := by
    rw [h2] at hgfv2
    simp only [Except.ok.injEq] at hgfv2
    rw [← hgfv2, buildMaps_eq _ hbfsnd]
  rw [hfst1, hfst2]
  set bfs := fs.flatMap (fun f => codeIDs f (maxValOf f2d f)) with hbfs
  set m1 := swapEnum 0 fs with hm1
  set m2 := swapEnum 0 bfs with hm2
  -- facts about the unique row for (L, p)
  have hr0mem : r0 ∈ rows.filter
      (fun r => decide (r.Language_ID = L) && decide (r.Parameter_ID = p)) := by
    rw [hrow]
    exact List.mem_cons_self r0 []
  have hr0 := List.mem_filter.mp hr0mem
  have hr0facts : r0.Language_ID = L ∧ r0.Parameter_ID = p := by
    have := hr0.2
    simpa using this
  have hr0L := hr0facts.1
  have hr0p := hr0facts.2
  -- non-binary side
  rcases List.mem_iff_get.mp hp with ⟨⟨ip, hipl⟩, hipget⟩
  have hgetp : pyGet m1 p = some ip := by
    have := pyGet_swapEnum fs 0 ip hipl hnd
    rw [hipget] at this
    simpa using this
  have hm1len : m1.length = fs.length := swapEnum_length fs 0
  have hm1E : m1.isEmpty = false := by
    rcases hm : m1 with _ | ⟨kv, rest⟩
    · exfalso
      rw [hm] at hm1len
      exact hfsne (List.length_eq_zero.mp hm1len.symm)
    · rfl
  have hbound1 : ∀ kv ∈ m1, kv.2 < (List.replicate m1.length (0 : Int)).length := by
    intro kv hkv
    rw [List.length_replicate, hm1len]
    exact swapEnum_val_lt fs kv hkv
  have hparse1 : ∀ r ∈ rows, r.Language_ID = L →
      (pyGet m1 (rowKey false r)).isSome → (rowVal false r).isSome := by
    intro r hr hrL hsome
    rcases Option.isSome_iff_exists.mp hsome with ⟨i, hi⟩
    have hk : rowKey false r = r.Parameter_ID := rfl
    rw [hk] at hi
    rcases pyGet_swapEnum_inv fs 0 i r.Parameter_ID hi with ⟨i2, hi2, _, hgeti⟩
    have hmem : r.Parameter_ID ∈ fs := hgeti ▸ List.get_mem fs i2 hi2
    simpa [rowVal] using hparse r hr hrL hmem
  obtain ⟨out1, hscan1, hlen1, hslot1⟩ :=
    scanRows_spec false L m1 rows (List.replicate m1.length 0) hbound1 hparse1
  have hout1 : get_language_vector f2d false rows L (some m1) = some out1 := by
    rw [glv_eq_scan f2d false rows L m1 hm1E, hscan1]
  -- the non-binary slot of p holds v
  have hwrtop : ∀ x ∈ rows, writesTo false L m1 ip x = true →
      (decide (x.Language_ID = L) && decide (x.Parameter_ID = p)) = true := by
    intro x hx hw
    simp only [writesTo, Bool.and_eq_true, decide_eq_true_eq] at hw
    obtain ⟨hxL, hxk⟩ := hw
    have hk : rowKey false x = x.Parameter_ID := rfl
    rw [hk] at hxk
    rcases pyGet_swapEnum_inv fs 0 ip x.Parameter_ID hxk with ⟨i2, hi2, hip2, hgeti⟩
    have hieq : i2 = ip := by omega
    subst hieq
    have hxp : x.Parameter_ID = p := by
      rw [← hgeti]
      exact hipget
    simp [hxL, hxp]
  have hw0p : writesTo false L m1 ip r0 = true := by
    simp [writesTo, hr0L, rowKey, hr0p, hgetp]
  have hfilter1 : rows.filter (writesTo false L m1 ip) = [r0] := by
    have := filter_sub_singleton _ (writesTo false L m1 ip) rows r0 hrow hwrtop
    simpa [hw0p] using this
  have hfind1 := reverse_find?_of_filter_singleton (writesTo false L m1 ip) rows r0
    hfilter1
  have hiplen : ip < (List.replicate m1.length (0 : Int)).length := by
    rw [List.length_replicate, hm1len]
    exact hipl
  have hslotp : out1[ip]? = some ((v : Nat) : Int) := by
    have := hslot1 ip hiplen
    rw [hfind1] at this
    simpa [rowVal, hvint] using this
  -- binary side
  have hmv1 : (1 : Int) ≤ info.max_value := le_trans (by exact_mod_cast hv1) hv2
  have hcode1mem : p ++ "-" ++ pyStr 1 ∈ bfs := by
    refine List.mem_flatMap.mpr ⟨p, hp, ?_⟩
    show p ++ "-" ++ pyStr 1 ∈ codeIDs p (maxValOf f2d p)
    rw [hmvp]
    exact mem_codeIDs p info.max_value 1 le_rfl hmv1
  have hbfsne : bfs ≠ [] := List.ne_nil_of_mem hcode1mem
  have hm2len : m2.length = bfs.length := swapEnum_length bfs 0
  have hm2E : m2.isEmpty = false := by
    rcases hm : m2 with _ | ⟨kv, rest⟩
    · exfalso
      rw [hm] at hm2len
      exact hbfsne (List.length_eq_zero.mp hm2len.symm)
    · rfl
  have hbound2 : ∀ kv ∈ m2, kv.2 < (List.replicate m2.length (0 : Int)).length := by
    intro kv hkv
    rw [List.length_replicate, hm2len]
    exact swapEnum_val_lt bfs kv hkv
  have hparse2 : ∀ r ∈ rows, r.Language_ID = L →
      (pyGet m2 (rowKey true r)).isSome → (rowVal true r).isSome := by
    intro r _ _ _
    rfl
  obtain ⟨out2, hscan2, hlen2, hslot2⟩ :=
    scanRows_spec true L m2 rows (List.replicate m2.length 0) hbound2 hparse2
  have hout2 : get_language_vector f2d true rows L (some m2) = some out2 := by
    rw [glv_eq_scan f2d true rows L m2 hm2E, hscan2]
  -- injectivity of p's codes, from the binarized set being duplicate-free
  have hblock : (codeIDs p info.max_value).Sublist bfs := by
    have h3 := sublist_flatMap_of_mem (fun f => codeIDs f (maxValOf f2d f)) fs p hp
    simpa [hmvp] using h3
  have hblocknd : (codeIDs p info.max_value).Nodup := List.Nodup.sublist hblock hbfsnd
  have hcodeinj : ∀ j1 j2 : Nat, 1 ≤ j1 → (j1 : Int) ≤ info.max_value →
      1 ≤ j2 → (j2 : Int) ≤ info.max_value → j1 ≠ j2 →
      p ++ "-" ++ pyStr j1 ≠ p ++ "-" ++ pyStr j2 := by
    intro j1 j2 ha1 ha2 hb1 hb2 hne he
    have h1 : j1 - 1 < info.max_value.toNat := by omega
    have h2 : j2 - 1 < info.max_value.toNat := by omega
    refine nodup_range_map_inj (fun t => p ++ "-" ++ pyStr (t + 1))
      info.max_value.toNat hblocknd (j1 - 1) (j2 - 1) h1 h2 (by omega) ?_
    show p ++ "-" ++ pyStr (j1 - 1 + 1) = p ++ "-" ++ pyStr (j2 - 1 + 1)
    rw [show j1 - 1 + 1 = j1 by omega, show j2 - 1 + 1 = j2 by omega]
    exact he
  have hr0key : r0.Parameter_ID ++ "-" ++ r0.Value = p ++ "-" ++ pyStr v := by
    rw [hr0p, hval]
  refine ⟨out1, out2, ip, hout1, hgetp, hslotp, hout2, ?_⟩
  intro j hj1 hj2
  have hcodejmem : p ++ "-" ++ pyStr j ∈ bfs := by
    refine List.mem_flatMap.mpr ⟨p, hp, ?_⟩
    show p ++ "-" ++ pyStr j ∈ codeIDs p (maxValOf f2d p)
    rw [hmvp]
    exact mem_codeIDs p info.max_value j hj1 hj2
  rcases List.mem_iff_get.mp hcodejmem with ⟨⟨ij, hijl⟩, hijget⟩
  have hgetj : pyGet m2 (p ++ "-" ++ pyStr j) = some ij := by
    have := pyGet_swapEnum bfs 0 ij hijl hbfsnd
    rw [hijget] at this
    simpa using this
  refine ⟨ij, hgetj, ?_⟩
  have hijlen : ij < (List.replicate m2.length (0 : Int)).length := by
    rw [List.length_replicate, hm2len]
    exact hijl
  have hwrtop2 : ∀ x ∈ rows, writesTo true L m2 ij x = true →
      (decide (x.Language_ID = L) && decide (x.Parameter_ID = p)) = true := by
    intro x hx hw
    simp only [writesTo, Bool.and_eq_true, decide_eq_true_eq] at hw
    obtain ⟨hxL, hxk⟩ := hw
    have hk : rowKey true x = x.Parameter_ID ++ "-" ++ x.Value := rfl
    rw [hk] at hxk
    rcases pyGet_swapEnum_inv bfs 0 ij (x.Parameter_ID ++ "-" ++ x.Value) hxk with
      ⟨i2, hi2, hip2, hgeti⟩
    have hieq : i2 = ij := by omega
    subst hieq
    have hxcode : x.Parameter_ID ++ "-" ++ x.Value = p ++ "-" ++ pyStr j := by
      rw [← hgeti]
      exact hijget
    by_cases hxp : x.Parameter_ID = p
    · simp [hxL, hxp]
    · exact absurd hxcode (hnocol x hx hxL hxp j)
  by_cases hjv : j = v
  · subst hjv
    have hw0 : writesTo true L m2 ij r0 = true := by
      have hk : rowKey true r0 = p ++ "-" ++ pyStr j := by
        have : rowKey true r0 = r0.Parameter_ID ++ "-" ++ r0.Value := rfl
        rw [this, hr0key]
      simp [writesTo, hr0L, hk, hgetj]
    have hfilter2 : rows.filter (writesTo true L m2 ij) = [r0] := by
      have := filter_sub_singleton _ (writesTo true L m2 ij) rows r0 hrow hwrtop2
      simpa [hw0] using this
    have hfind2 := reverse_find?_of_filter_singleton (writesTo true L m2 ij) rows r0
      hfilter2
    have := hslot2 ij hijlen
    rw [hfind2] at this
    simpa [rowVal] using this
  · have hcodene : p ++ "-" ++ pyStr v ≠ p ++ "-" ++ pyStr j :=
      hcodeinj v j hv1 hv2 hj1 hj2 (fun he => hjv he.symm)
    have hlook : ¬ (pyGet m2 (rowKey true r0) = some ij) := by
      intro hlk
      have hk : rowKey true r0 = p ++ "-" ++ pyStr v := by
        have : rowKey true r0 = r0.Parameter_ID ++ "-" ++ r0.Value := rfl
        rw [this, hr0key]
      rw [hk] at hlk
      rcases pyGet_swapEnum_inv bfs 0 ij (p ++ "-" ++ pyStr v) hlk with
        ⟨i2, hi2, hip2, hgeti⟩
      have hieq : i2 = ij := by omega
      subst hieq
      exact hcodene (hgeti.symm.trans hijget)
    have hw0 : writesTo true L m2 ij r0 = false := by
      simp [writesTo, hlook]
    have hfilter2 : rows.filter (writesTo true L m2 ij) = [] := by
      have := filter_sub_singleton _ (writesTo true L m2 ij) rows r0 hrow hwrtop2
      simpa [hw0] using this
    have hfind2 := reverse_find?_of_filter_nil (writesTo true L m2 ij) rows hfilter2
    have := hslot2 ij hijlen
    rw [hfind2] at this
    simp only [List.getElem?_replicate] at this
    rw [if_pos (by rw [List.length_replicate] at hijlen; exact hijlen)] at this
    rw [this, if_neg hjv]

/-- Concrete instantiation of `binary_nonbinary_consistency`: language
"eng" has value "2" for parameter 81A with max-value 2; the non-binary
slot is 2 and exactly the 81A-2 slot of the binarized vector is 1. -/
theorem binary_nonbinary_consistency_witness :
    ∃ out1 out2 i1,
      get_language_vector [("81A", ⟨2, [("81A-1", "x"), ("81A-2", "y")]⟩)] false
          [⟨"eng", "81A", "2"⟩] "eng" (some [("81A", 0)]) = some out1 ∧
      pyGet [("81A", (0 : Nat))] "81A" = some i1 ∧
      out1[i1]? = some (((2 : Nat) : Int)) ∧
      get_language_vector [("81A", ⟨2, [("81A-1", "x"), ("81A-2", "y")]⟩)] true
          [⟨"eng", "81A", "2"⟩] "eng"
          (some [("81A-1", 0), ("81A-2", 1)]) = some out2 ∧
      ∀ j : Nat, 1 ≤ j →
          (j : Int) ≤ (⟨2, [("81A-1", "x"), ("81A-2", "y")]⟩ : ParamInfo).max_value →
        ∃ i, pyGet [("81A-1", (0 : Nat)), ("81A-2", 1)]
            ("81A" ++ "-" ++ pyStr j) = some i ∧
          out2[i]? = some (if j = 2 then (1 : Int) else 0) :=
  binary_nonbinary_consistency
    [("81A", ⟨2, [("81A-1", "x"), ("81A-2", "y")]⟩)] ["81A"] "81A"
    ⟨2, [("81A-1", "x"), ("81A-2", "y")]⟩ [⟨"eng", "81A", "2"⟩] "eng"
    ⟨"eng", "81A", "2"⟩ 2
    ([("81A", 0)], [(0, "81A")])
    ([("81A-1", 0), ("81A-2", 1)], [(0, "81A-1"), (1, "81A-2")])
    (by decide) (by decide) (by decide) (by decide) (by decide)
    rfl rfl (by decide) (by decide) (by decide) (by decide) (by decide)
    (by decide)
    (by
      intro r hr hL hne j
      simp at hr
      subst hr
      exact absurd rfl hne)
